import Mathlib

/-!
Verification of `scripts/convert_to_markdown.py`.

The program is embedded shallowly: the filesystem is a value (a list of file
entries with optional text content — `none` models content that is not valid
UTF-8 — plus a list of directories and a current working directory), paths are
lists of components (POSIX separators), and each Python function becomes a
Lean function over that model.  Python's stable `sorted` with a key is modelled
by `List.insertionSort` on the non-strict key order (insertion sort is stable,
like Python's sort, so it computes the same list).  `str.lower`, `str.rstrip`,
`str.splitlines`, `Path.suffix`, `Path.relative_to` and `str.endswith` are
modelled for ASCII content, which is what every property below exercises.
Operations that can raise in Python (`Path.relative_to`) return `Except`;
an uncaught exception surfaces as a `completed = false` outcome.
-/

namespace ConvertMD

/-- Paths are lists of components; `str(path)` joins them with `/`. -/
abbrev Path := List String

/-- Python `str(path)` for a POSIX path. -/
def strPath (p : Path) : String := String.intercalate "/" p

/-- Python `path.name`: the final component (empty for the empty path). -/
def pathName (p : Path) : String := p.getLast?.getD ""

/-- ASCII case folding of one character, as Python `str.lower` does on ASCII. -/
def pyLowerChar (c : Char) : Char :=
  if 65 ≤ c.toNat ∧ c.toNat ≤ 90 then Char.ofNat (c.toNat + 32) else c

/-- Python `str.lower` (ASCII fragment). -/
def pyLower (s : String) : String := String.mk (s.data.map pyLowerChar)

/-- Python `str.endswith(suffixString)`. -/
def strEndsWith (s suffixStr : String) : Bool := suffixStr.data.isSuffixOf s.data

/-- Python `str.isspace` characters that occur in ASCII text. -/
def pyIsSpace (c : Char) : Bool :=
  c = ' ' || c = '\t' || c = '\n' || c = '\r' || c = '\x0b' || c = '\x0c'

/-- Python `str.rstrip()`: drop all trailing whitespace. -/
def pyRstrip (s : String) : String :=
  String.mk ((s.data.reverse.dropWhile pyIsSpace).reverse)

/-- True when the last character of `s` is whitespace. -/
def hasTrailingWs (s : String) : Bool :=
  match s.data.reverse with
  | [] => false
  | c :: _ => pyIsSpace c

/-- Python `len(s.splitlines())` for text whose line breaks are `\n`. -/
def pySplitlinesCount (s : String) : Nat :=
  s.data.count '\n' +
    match s.data.reverse with
    | [] => 0
    | c :: _ => if c = '\n' then 0 else 1

/-- Python `pathlib.PurePath.suffix`: the final extension of the name.
With `i` the index of the last dot, the suffix is `name[i:]` when
`0 < i < len(name) - 1` and the empty string otherwise. -/
def pySuffix (name : String) : String :=
  let r := name.data.reverse
  let k := r.takeWhile (fun c => c ≠ '.')
  if 0 < k.length ∧ k.length + 1 < r.length then String.mk ('.' :: k.reverse) else ""

/-- A file of the modelled tree: a path and its text content, where `none`
models bytes that do not decode as UTF-8 (`read_text` raises
`UnicodeDecodeError` on them). -/
structure FileEntry where
  path : Path
  content : Option String
deriving DecidableEq

/-- The filesystem state a run sees: regular files, directories, and the
current working directory. -/
structure FileSystem where
  files : List FileEntry
  dirs : List Path
  cwd : Path
deriving DecidableEq

/-- Paths of all regular files. -/
def filePaths (fs : FileSystem) : List Path := fs.files.map (·.path)

/-- Python `path.exists()` over the model. -/
def existsPath (fs : FileSystem) (p : Path) : Prop :=
  p ∈ filePaths fs ∨ p ∈ fs.dirs

instance (fs : FileSystem) (p : Path) : Decidable (existsPath fs p) := by
  unfold existsPath; infer_instance

/-- Python `path.is_dir()` over the model. -/
def isDir (fs : FileSystem) (p : Path) : Prop := p ∈ fs.dirs

instance (fs : FileSystem) (p : Path) : Decidable (isDir fs p) := by
  unfold isDir; infer_instance

/-- Python `worker_dir.glob("**/*" + ext)`: every regular file strictly under
`dir` whose name ends with `ext`, in filesystem (discovery) order. -/
def globFiles (fs : FileSystem) (dir : Path) (ext : String) : List Path :=
  (filePaths fs).filter fun p =>
    dir.isPrefixOf p && decide (dir.length < p.length) && strEndsWith (pathName p) ext

/-- The two top-level allow-listed filenames of `find_files`. -/
def allowList : List String := ["wrangler.toml", "vitest.config.ts"]

/-- Python's non-strict lexicographic comparison of strings, on code points. -/
def lexLeChars : List Char → List Char → Bool
  | [], _ => true
  | _ :: _, [] => false
  | a :: as, b :: bs => if a = b then lexLeChars as bs else decide (a.toNat < b.toNat)

/-- Python's strict lexicographic comparison of strings, on code points. -/
def lexLtChars : List Char → List Char → Bool
  | [], [] => false
  | [], _ :: _ => true
  | _ :: _, [] => false
  | a :: as, b :: bs => if a = b then lexLtChars as bs else decide (a.toNat < b.toNat)

/-- The sort key of `find_files`: the characters of `str(p).lower()`. -/
def keyChars (p : Path) : List Char := (pyLower (strPath p)).data

/-- Sort key order of `find_files`: `str(p).lower()` compared as Python
compares strings. -/
def pathKeyLe (a b : Path) : Prop := lexLeChars (keyChars a) (keyChars b) = true

instance : DecidableRel pathKeyLe := fun a b =>
  inferInstanceAs (Decidable (lexLeChars (keyChars a) (keyChars b) = true))

theorem lexLeChars_total : ∀ l₁ l₂ : List Char,
    lexLeChars l₁ l₂ = true ∨ lexLeChars l₂ l₁ = true
  | [], _ => by left; rfl
  | _ :: _, [] => by right; rfl
  | a :: as, b :: bs => by
    by_cases hab : a = b
    · subst hab
      rcases lexLeChars_total as bs with h | h
      · left; simpa [lexLeChars] using h
      · right; simpa [lexLeChars] using h
    · have hn : a.toNat ≠ b.toNat := fun h => hab (Char.eq_of_val_eq (UInt32.toNat.inj h))
      rcases Nat.lt_or_gt_of_ne hn with h | h
      · left; simp [lexLeChars, hab, h]
      · right; simp [lexLeChars, Ne.symm hab, h]

theorem lexLeChars_trans : ∀ l₁ l₂ l₃ : List Char,
    lexLeChars l₁ l₂ = true → lexLeChars l₂ l₃ = true → lexLeChars l₁ l₃ = true
  | [], _, _, _, _ => rfl
  | _ :: _, [], _, h, _ => by simp [lexLeChars] at h
  | _ :: _, _ :: _, [], _, h => by simp [lexLeChars] at h
  | a :: as, b :: bs, c :: cs, h₁, h₂ => by
    by_cases hab : a = b <;> by_cases hbc : b = c
    · subst hab; subst hbc
      simp only [lexLeChars, if_pos rfl] at h₁ h₂ ⊢
      exact lexLeChars_trans as bs cs h₁ h₂
    · subst hab
      simpa [lexLeChars, hbc] using h₂
    · subst hbc
      simpa [lexLeChars, hab] using h₁
    · simp only [lexLeChars, if_neg hab, decide_eq_true_eq] at h₁
      simp only [lexLeChars, if_neg hbc, decide_eq_true_eq] at h₂
      have hac : a.toNat < c.toNat := Nat.lt_trans h₁ h₂
      have hne : a ≠ c := fun h => by subst h; exact Nat.lt_irrefl _ hac
      simp [lexLeChars, hne, hac]

instance : IsTotal Path pathKeyLe := ⟨fun _ _ => lexLeChars_total _ _⟩

instance : IsTrans Path pathKeyLe := ⟨fun _ _ _ h h' => lexLeChars_trans _ _ _ h h'⟩

/-- Model of `find_files(root, skip_dot_types)`: glob `worker/src` for
`**/*.ts` then `**/*.tsx` (skipping `.d.ts` names when the flag is set),
append the allow-listed top-level files that exist, and stable-sort by the
lowercase path string. -/
def find_files (fs : FileSystem) (root : Path) (skip_dot_types : Bool) : List Path :=
  let worker_dir := root ++ ["worker", "src"]
  let fromGlob :=
    if existsPath fs worker_dir ∧ isDir fs worker_dir then
      ((globFiles fs worker_dir ".ts").filter
        fun p => !(skip_dot_types && strEndsWith (pathName p) ".d.ts")) ++
      ((globFiles fs worker_dir ".tsx").filter
        fun p => !(skip_dot_types && strEndsWith (pathName p) ".d.ts"))
    else []
  let extras := (allowList.map fun name => root ++ [name]).filter
    fun p => decide (existsPath fs p)
  List.insertionSort pathKeyLe (fromGlob ++ extras)

/-- Model of `file_language_for(path)`. -/
def file_language_for (p : Path) : String :=
  let s := pyLower (pySuffix (pathName p))
  if s = ".toml" then "toml"
  else if s = ".ts" ∨ s = ".tsx" then "ts"
  else "text"

/-- Python `p.relative_to(base)`: drops `base` when it is a prefix of `p`,
otherwise raises `ValueError` (modelled as `Except.error`). -/
def relativeTo (p base : Path) : Except Unit Path :=
  if base.isPrefixOf p then Except.ok (p.drop base.length) else Except.error ()

/-- The display path of `write_markdown`:
`path.relative_to(Path.cwd()) if path.exists() else path`. -/
def displayPath (fs : FileSystem) (p : Path) : Except Unit Path :=
  if existsPath fs p then relativeTo p fs.cwd else Except.ok p

/-- Outcome of `path.read_text(encoding="utf-8")`. -/
inductive ReadResult where
  | ok (text : String)
  | decodeError
  | notFound
deriving DecidableEq

/-- Model of `path.read_text`: the first entry with this path decides the
result; a missing file raises `FileNotFoundError` (`notFound`, uncaught). -/
def read_text (fs : FileSystem) (p : Path) : ReadResult :=
  match fs.files.find? (fun e => e.path == p) with
  | none => ReadResult.notFound
  | some e =>
    match e.content with
    | some t => ReadResult.ok t
    | none => ReadResult.decodeError

/-- The stderr diagnostic for a file skipped on decode failure. -/
def warnMsg (p : Path) : String := "Warning: skipping non-text file " ++ strPath p

/-- The text between a section's opening and closing fences:
`text.rstrip() + "\n"`. -/
def fencedBlockBody (t : String) : String := pyRstrip t ++ "\n"

/-- One per-file section of the output document. -/
def sectionText (p rel : Path) (t : String) : String :=
  "---\n\n" ++ "## `" ++ strPath rel ++ "`\n\n" ++
  "_Size: " ++ toString (pySplitlinesCount t) ++ " lines_  \n\n" ++
  "```" ++ file_language_for p ++ "\n" ++ fencedBlockBody t ++ "```\n\n"

/-- The document header, with `now` standing for `datetime.utcnow().isoformat()`. -/
def headerText (now : String) : String :=
  "# Combined source files\n\nGenerated: " ++ now ++ "Z\n\n"

/-- The completion message printed to stdout. -/
def completionMsg (out : Path) (n : Nat) : String :=
  "Wrote " ++ strPath out ++ " with " ++ toString n ++ " files."

/-- The per-file loop of `write_markdown`: returns the document body written
so far, the stderr warnings emitted, and whether the loop ran to completion
(`false` when an uncaught exception — `FileNotFoundError` on read or
`ValueError` from `relative_to` — aborts it). -/
def writeBody (fs : FileSystem) : List Path → String × List String × Bool
  | [] => ("", [], true)
  | p :: rest =>
    match read_text fs p with
    | ReadResult.notFound => ("", [], false)
    | ReadResult.decodeError =>
      let r := writeBody fs rest
      (r.1, warnMsg p :: r.2.1, r.2.2)
    | ReadResult.ok t =>
      match displayPath fs p with
      | Except.error _ => ("", [], false)
      | Except.ok rel =>
        let r := writeBody fs rest
        (sectionText p rel t ++ r.1, r.2.1, r.2.2)

/-- Observable outcome of `write_markdown`: the bytes written to the output
file, the stderr warnings, the stdout completion message (absent when the
writer aborted), and whether it completed. -/
structure WriteOutcome where
  doc : String
  warnings : List String
  stdoutMsg : Option String
  completed : Bool
deriving DecidableEq

/-- Model of `write_markdown(files, out_path)`. -/
def write_markdown (fs : FileSystem) (files : List Path) (out : Path) (now : String) :
    WriteOutcome :=
  let r := writeBody fs files
  ⟨headerText now ++ r.1, r.2.1,
    if r.2.2 then some (completionMsg out files.length) else none, r.2.2⟩

/-- Observable outcome of `main`: exit code, the output file's content
(`none` when it was never created), stderr lines and stdout lines. -/
structure RunOutcome where
  exitCode : Nat
  outputFile : Option String
  stderrLines : List String
  stdoutLines : List String
deriving DecidableEq

/-- Model of `main`: argparse forces `skip_dot_types = True`; an empty
discovery exits 2 before the output file is opened; otherwise the writer runs
and an uncaught exception exits 1 leaving the partial document on disk. -/
def mainRun (fs : FileSystem) (root out : Path) (now : String) : RunOutcome :=
  let files := find_files fs root true
  if files.isEmpty then
    ⟨2, none, ["No files found to include."], []⟩
  else
    let w := write_markdown fs files out now
    ⟨if w.completed then 0 else 1, some w.doc, w.warnings, w.stdoutMsg.toList⟩

/-- Concatenation of a list of text pieces, used to state what the writer
produces. -/
def concatTexts (l : List String) : String := l.foldr (fun a b => a ++ b) ""

/-! Helper lemmas about the string primitives. -/

theorem strEndsWith_ts_of_dts {s : String} (h : strEndsWith s ".d.ts" = true) :
    strEndsWith s ".ts" = true := by
  unfold strEndsWith at h ⊢
  rw [List.isSuffixOf_iff_suffix] at h ⊢
  exact List.IsSuffix.trans (by decide) h

theorem pySuffix_of_dts (name : String) (h : strEndsWith name ".d.ts" = true) :
    pySuffix name = ".ts" := by
  unfold strEndsWith at h
  rw [List.isSuffixOf_iff_suffix] at h
  obtain ⟨pre, hpre⟩ := h
  have hd : name.data = pre ++ ['.', 'd', '.', 't', 's'] := hpre.symm
  have hrev : name.data.reverse = 's' :: 't' :: '.' :: 'd' :: '.' :: pre.reverse := by
    rw [hd, List.reverse_append]; rfl
  unfold pySuffix
  rw [hrev]
  dsimp only
  rw [List.takeWhile_cons_of_pos (by decide), List.takeWhile_cons_of_pos (by decide),
    List.takeWhile_cons_of_neg (by decide),
    if_pos ⟨by decide, by simp only [List.length_cons, List.length_nil]; omega⟩]
  decide

theorem pyRstrip_data (t : String) :
    (pyRstrip t).data = (t.data.reverse.dropWhile pyIsSpace).reverse := rfl

theorem hasTrailingWs_pyRstrip (t : String) : hasTrailingWs (pyRstrip t) = false := by
  unfold hasTrailingWs
  rw [pyRstrip_data, List.reverse_reverse]
  have h := List.head?_dropWhile_not pyIsSpace t.data.reverse
  rcases hc : t.data.reverse.dropWhile pyIsSpace with _ | ⟨c, l⟩
  · rfl
  · rw [hc] at h
    simpa using h

theorem pyRstrip_of_no_trailing_ws (t : String) (h : hasTrailingWs t = false) :
    pyRstrip t = t := by
  unfold hasTrailingWs at h
  rcases hc : t.data.reverse with _ | ⟨c, l⟩
  · unfold pyRstrip
    rw [hc]
    apply String.ext
    simpa using congrArg List.reverse hc.symm
  · rw [hc] at h
    have h' : pyIsSpace c = false := h
    unfold pyRstrip
    rw [hc, List.dropWhile_cons_of_neg (by simp [h']), ← hc, List.reverse_reverse]

/-! Claim C2: the display path.

The source computes `rel = path.relative_to(Path.cwd()) if path.exists() else
path`.  This is not "relative when possible, raw otherwise": when the path
exists but the working directory is not a prefix of it, `relative_to` raises
`ValueError` and the run aborts.  The raw path is used exactly when the path
does not exist. -/

/-- A filesystem whose single file exists but lies outside the working
directory. -/
def fsC2 : FileSystem :=
  ⟨[⟨["opt", "proj", "x.ts"], some "let x = 1"⟩], [], ["home", "user"]⟩

/-- Claim C2, counterexample: a file that exists but is not under the current
working directory makes the display-path computation raise (`Except.error`),
although relativizing is merely "not possible" and the claim promises the raw
path and no error. -/
theorem displayPath_raises_outside_cwd :
    existsPath fsC2 ["opt", "proj", "x.ts"] ∧
    displayPath fsC2 ["opt", "proj", "x.ts"] = Except.error () :=
  ⟨by decide, rfl⟩

/-- Claim C2, amended: the heading path is `p` relativized to the working
directory when `p` exists and the working directory is a prefix of it; it
raises when `p` exists and the working directory is not a prefix; and it is
the raw path exactly when `p` does not exist. -/
theorem displayPath_behaviour (fs : FileSystem) (p : Path) :
    (existsPath fs p → fs.cwd <+: p → displayPath fs p = Except.ok (p.drop fs.cwd.length)) ∧
    (existsPath fs p → ¬ fs.cwd <+: p → displayPath fs p = Except.error ()) ∧
    (¬ existsPath fs p → displayPath fs p = Except.ok p) := by
  refine ⟨fun he hp => ?_, fun he hp => ?_, fun he => ?_⟩
  · rw [displayPath, if_pos he, relativeTo,
      if_pos ((List.isPrefixOf_iff_prefix).mpr hp)]
  · rw [displayPath, if_pos he, relativeTo,
      if_neg (by simpa using (fun hb => hp ((List.isPrefixOf_iff_prefix).mp hb)))]
  · rw [displayPath, if_neg he]

/-- Witness for the amended C2 theorem at a concrete non-existing path. -/
theorem displayPath_behaviour_witness :
    displayPath fsC2 ["elsewhere.md"] = Except.ok ["elsewhere.md"] :=
  (displayPath_behaviour fsC2 ["elsewhere.md"]).2.2 (by decide)

/-! Claim C8: the language classifier. -/

/-- Claim C8: `file_language_for` is total (it is a Lean function), compares
the final extension after ASCII case folding, and maps `.toml` to `"toml"`,
`.ts` and `.tsx` to the stable two-letter tag `"ts"`, and everything else to
`"text"`. -/
theorem file_language_classifier (p : Path) :
    (pyLower (pySuffix (pathName p)) = ".toml" → file_language_for p = "toml") ∧
    ((pyLower (pySuffix (pathName p)) = ".ts" ∨ pyLower (pySuffix (pathName p)) = ".tsx") →
      file_language_for p = "ts") ∧
    (pyLower (pySuffix (pathName p)) ≠ ".toml" →
      pyLower (pySuffix (pathName p)) ≠ ".ts" →
      pyLower (pySuffix (pathName p)) ≠ ".tsx" →
      file_language_for p = "text") := by
  refine ⟨fun h => ?_, fun h => ?_, fun h1 h2 h3 => ?_⟩
  · simp [file_language_for, h]
  · rcases h with h | h <;> rw [file_language_for, h] <;> rfl
  · simp only [file_language_for, if_neg h1]
    rw [if_neg (by tauto)]

/-- Witness for C8 at a concrete uppercase `.TSX` path. -/
theorem file_language_classifier_witness :
    file_language_for ["src", "app.TSX"] = "ts" :=
  (file_language_classifier ["src", "app.TSX"]).2.1 (Or.inr (by decide))

/-! Claim C10: declaration files are fenced as `ts`. -/

/-- Claim C10: a path whose name ends in `.d.ts` is classified by its final
extension `.ts` only, so it gets the same tag as a plain `.ts` file and never
`"text"`. -/
theorem dts_classified_as_ts (p : Path) (h : strEndsWith (pathName p) ".d.ts" = true) :
    file_language_for p = "ts" ∧
    file_language_for p = file_language_for ["a.ts"] ∧
    file_language_for p ≠ "text" := by
  have hs : pyLower (pySuffix (pathName p)) = ".ts" := by
    rw [pySuffix_of_dts (pathName p) h]; rfl
  have hts : file_language_for p = "ts" := by rw [file_language_for, hs]; rfl
  exact ⟨hts, by rw [hts]; rfl, by rw [hts]; decide⟩

/-- Witness for C10 at a concrete declaration file. -/
theorem dts_classified_as_ts_witness :
    file_language_for ["worker", "src", "types.d.ts"] = "ts" :=
  (dts_classified_as_ts ["worker", "src", "types.d.ts"] (by decide)).1

/-! Claim C9: the fenced block body.

The body written between the fences is `text.rstrip() + "\n"`: the content
with all trailing whitespace trimmed plus exactly one newline.  The claim's
"in particular" clause is wrong: `rstrip` also removes a final newline or
trailing spaces, so for content such as `"abc "` (no trailing blank lines)
the body is not the original content plus one newline. -/

/-- Claim C9, counterexample: two contents with no trailing blank lines whose
emitted block body differs from the original content plus one newline. -/
theorem fencedBlockBody_not_roundtrip :
    fencedBlockBody "abc " ≠ "abc " ++ "\n" ∧
    fencedBlockBody "abc\n" ≠ "abc\n" ++ "\n" := by decide

/-- Claim C9, amended: the body equals the content with trailing whitespace
trimmed plus exactly one trailing newline (what precedes the newline ends in
non-whitespace), and the round trip `body = content + "\n"` holds exactly for
content with no trailing whitespace character. -/
theorem fencedBlockBody_spec (t : String) :
    fencedBlockBody t = pyRstrip t ++ "\n" ∧
    hasTrailingWs (pyRstrip t) = false ∧
    (hasTrailingWs t = false → fencedBlockBody t = t ++ "\n") := by
  refine ⟨rfl, hasTrailingWs_pyRstrip t, fun h => ?_⟩
  rw [fencedBlockBody, pyRstrip_of_no_trailing_ws t h]

/-- Witness for the amended C9 theorem on newline-free content. -/
theorem fencedBlockBody_spec_witness :
    fencedBlockBody "abc" = "abc" ++ "\n" :=
  (fencedBlockBody_spec "abc").2.2 (by decide)

/-! Claim C1: ordering of the discovered list.

`sorted(files, key=lambda p: str(p).lower())` is a stable non-strict sort:
the output is non-decreasing in the lowercase key, and two distinct paths
whose lowercase forms coincide (possible on a case-sensitive filesystem) stay
in discovery order, so the output is not strictly sorted.  Determinism over
an unchanged tree is inherent: discovery is a function of the filesystem
value. -/

/-- A tree containing `A.ts` and `a.ts`, distinct paths with equal lowercase
keys. -/
def fsC1 : FileSystem :=
  ⟨[⟨["r", "worker", "src", "A.ts"], some ""⟩,
    ⟨["r", "worker", "src", "a.ts"], some ""⟩],
   [["r", "worker", "src"]], []⟩

/-- Claim C1, counterexample: on a tree with `A.ts` and `a.ts` the result
keeps both paths, their lowercase keys are equal, and the list is not
strictly sorted by the lowercase key. -/
theorem find_files_not_strictly_sorted :
    find_files fsC1 ["r"] true =
      [["r", "worker", "src", "A.ts"], ["r", "worker", "src", "a.ts"]] ∧
    keyChars ["r", "worker", "src", "A.ts"] = keyChars ["r", "worker", "src", "a.ts"] ∧
    ¬ List.Pairwise (fun a b : Path => lexLtChars (keyChars a) (keyChars b) = true)
        (find_files fsC1 ["r"] true) := by decide

/-- Claim C1, amended: for every filesystem, root and flag, the returned list
is sorted non-decreasingly by the lowercase string form of the full path
(ties keep discovery order, the sort being stable), and discovery run twice
on the unchanged tree returns the identical list. -/
theorem find_files_sorted_ci (fs : FileSystem) (root : Path) (flag : Bool) :
    List.Sorted pathKeyLe (find_files fs root flag) ∧
    find_files fs root flag = find_files fs root flag :=
  ⟨List.sorted_insertionSort pathKeyLe _, rfl⟩

/-! Claim C3: empty discovery exits 2 and writes nothing. -/

/-- Claim C3: when the locator finds no candidate files, `main` prints the
diagnostic to stderr and returns exit code 2; the output file is never
created and the writer is never invoked. -/
theorem main_exits_two_when_no_files (fs : FileSystem) (root out : Path) (now : String)
    (h : find_files fs root true = []) :
    mainRun fs root out now = ⟨2, none, ["No files found to include."], []⟩ := by
  simp [mainRun, h]

/-- Witness for C3 on an empty filesystem. -/
theorem main_exits_two_when_no_files_witness :
    mainRun ⟨[], [], []⟩ ["r"] ["out.md"] "T" =
      ⟨2, none, ["No files found to include."], []⟩ :=
  main_exits_two_when_no_files ⟨[], [], []⟩ ["r"] ["out.md"] "T" (by decide)

/-! Claim C7: discovery without a `worker/src` directory. -/

/-- Claim C7: when `worker/src` does not exist under the root (in particular
when the root itself does not exist), `find_files` — a total function, so it
cannot raise — returns exactly the allow-listed top-level files that are
present. -/
theorem find_files_without_worker_dir (fs : FileSystem) (root : Path) (flag : Bool)
    (h : ¬ (existsPath fs (root ++ ["worker", "src"]) ∧ isDir fs (root ++ ["worker", "src"])))
    (p : Path) :
    p ∈ find_files fs root flag ↔
      ((p = root ++ ["wrangler.toml"] ∨ p = root ++ ["vitest.config.ts"]) ∧
        existsPath fs p) := by
  unfold find_files
  dsimp only
  rw [if_neg h]
  simp only [List.nil_append, List.mem_insertionSort, List.mem_filter, List.mem_map,
    allowList, List.mem_cons, List.mem_singleton, decide_eq_true_eq]
  constructor
  · rintro ⟨⟨name, hn | hn | hn, rfl⟩, he⟩
    · exact ⟨Or.inl (by rw [hn]), he⟩
    · exact ⟨Or.inr (by rw [hn]), he⟩
    · exact absurd hn (List.not_mem_nil _)
  · rintro ⟨hp | hp, he⟩
    · exact ⟨⟨"wrangler.toml", Or.inl rfl, hp.symm⟩, he⟩
    · exact ⟨⟨"vitest.config.ts", Or.inr (Or.inl rfl), hp.symm⟩, he⟩

/-- Witness for C7: a root without `worker/src` but with the TOML file. -/
theorem find_files_without_worker_dir_witness :
    (["r", "wrangler.toml"] : Path) ∈ find_files ⟨[⟨["r", "wrangler.toml"], some "x"⟩], [], []⟩ ["r"] true ∧
    (["r", "vitest.config.ts"] : Path) ∉ find_files ⟨[⟨["r", "wrangler.toml"], some "x"⟩], [], []⟩ ["r"] true :=
  ⟨(find_files_without_worker_dir ⟨[⟨["r", "wrangler.toml"], some "x"⟩], [], []⟩ ["r"] true
      (by decide) ["r", "wrangler.toml"]).mpr ⟨Or.inl rfl, by decide⟩,
   fun hmem => by
    have := (find_files_without_worker_dir ⟨[⟨["r", "wrangler.toml"], some "x"⟩], [], []⟩ ["r"] true
      (by decide) ["r", "vitest.config.ts"]).mp hmem
    revert this
    decide⟩

/-! Claim C5: the skip-declaration-files flag. -/

/-- Claim C5: a regular file strictly under `root/worker/src` whose name ends
in `.d.ts` (the `worker/src` directory existing) is excluded from
`find_files` when the skip flag is true and included when it is false. -/
theorem dts_excluded_iff_flag (fs : FileSystem) (root p : Path)
    (hfile : p ∈ filePaths fs)
    (hund : (root ++ ["worker", "src"]) <+: p)
    (hlen : (root ++ ["worker", "src"]).length < p.length)
    (hdts : strEndsWith (pathName p) ".d.ts" = true)
    (hdir : existsPath fs (root ++ ["worker", "src"]) ∧ isDir fs (root ++ ["worker", "src"])) :
    p ∉ find_files fs root true ∧ p ∈ find_files fs root false := by
  have hts : strEndsWith (pathName p) ".ts" = true := strEndsWith_ts_of_dts hdts
  have hlen' : root.length + 2 < p.length := by simpa using hlen
  have hglob : p ∈ globFiles fs (root ++ ["worker", "src"]) ".ts" := by
    unfold globFiles
    rw [List.mem_filter]
    refine ⟨hfile, ?_⟩
    simp [List.isPrefixOf_iff_prefix, hund, hlen', hts]
  constructor
  · intro hmem
    unfold find_files at hmem
    dsimp only at hmem
    rw [if_pos hdir, List.mem_insertionSort, List.mem_append, List.mem_append] at hmem
    rcases hmem with (h1 | h2) | h3
    · rw [List.mem_filter] at h1
      have hpred := h1.2
      simp [hdts] at hpred
    · rw [List.mem_filter] at h2
      have hpred := h2.2
      simp [hdts] at hpred
    · rw [List.mem_filter, List.mem_map] at h3
      obtain ⟨⟨name, _, hnp⟩, _⟩ := h3
      have hplen : p.length = root.length + 1 := by rw [← hnp]; simp
      have hwlen : (root ++ ["worker", "src"]).length = root.length + 2 := by simp
      omega
  · unfold find_files
    dsimp only
    rw [if_pos hdir, List.mem_insertionSort, List.mem_append]
    left
    rw [List.mem_append]
    left
    rw [List.mem_filter]
    exact ⟨hglob, by simp⟩

/-- A tree with one declaration file under `worker/src`. -/
def fsC5 : FileSystem :=
  ⟨[⟨["r", "worker", "src", "types.d.ts"], some ""⟩], [["r", "worker", "src"]], []⟩

/-- Witness for C5 at a concrete declaration file. -/
theorem dts_excluded_iff_flag_witness :
    (["r", "worker", "src", "types.d.ts"] : Path) ∉ find_files fsC5 ["r"] true ∧
    (["r", "worker", "src", "types.d.ts"] : Path) ∈ find_files fsC5 ["r"] false :=
  dts_excluded_iff_flag fsC5 ["r"] ["r", "worker", "src", "types.d.ts"]
    (by decide) (by decide) (by decide) (by decide) (by decide)

/-! Claims C4 and C6: the writer's skip-and-continue policy and its
completion message. -/

/-- The writer's loop on files that all exist and whose decodable members
have a computable display path: it completes, emits exactly one warning per
decode failure (in order), and writes exactly the sections of the decodable
files (in order), nothing for the failing ones. -/
theorem writeBody_spec (fs : FileSystem) : ∀ files : List Path,
    (∀ p ∈ files, read_text fs p ≠ ReadResult.notFound ∧
      (read_text fs p = ReadResult.decodeError ∨ (displayPath fs p).isOk = true)) →
    writeBody fs files =
      (concatTexts (files.map fun p =>
          match read_text fs p, displayPath fs p with
          | ReadResult.ok t, Except.ok rel => sectionText p rel t
          | _, _ => ""),
        (files.filter fun p => decide (read_text fs p = ReadResult.decodeError)).map warnMsg,
        true)
  | [], _ => rfl
  | p :: rest, h => by
    obtain ⟨hnf, hok⟩ := h p (List.mem_cons_self p rest)
    have ih := writeBody_spec fs rest (fun q hq => h q (List.mem_cons_of_mem p hq))
    cases hr : read_text fs p with
    | notFound => exact absurd hr hnf
    | decodeError =>
      simp only [writeBody, hr]
      rw [ih]
      simp [concatTexts, List.filter_cons, hr]
    | ok t =>
      have hdp : (displayPath fs p).isOk = true := by
        rcases hok with hok | hok
        · rw [hr] at hok; exact absurd hok (by simp)
        · exact hok
      rcases hrel : displayPath fs p with _ | rel
      · rw [hrel] at hdp; simp [Except.isOk, Except.toBool] at hdp
      · simp only [writeBody, hr, hrel]
        rw [ih]
        simp [concatTexts, List.filter_cons, hr, hrel]

/-- Claim C4: given files that all exist, the writer skips exactly the files
whose content fails to decode — one stderr warning each, no section — while
every decodable file (whose display path computes) still contributes its
section, and the run completes with its stdout message. -/
theorem write_markdown_skips_undecodable (fs : FileSystem) (files : List Path) (out : Path)
    (now : String)
    (h : ∀ p ∈ files, read_text fs p ≠ ReadResult.notFound ∧
      (read_text fs p = ReadResult.decodeError ∨ (displayPath fs p).isOk = true)) :
    write_markdown fs files out now =
      ⟨headerText now ++ concatTexts (files.map fun p =>
          match read_text fs p, displayPath fs p with
          | ReadResult.ok t, Except.ok rel => sectionText p rel t
          | _, _ => ""),
        (files.filter fun p => decide (read_text fs p = ReadResult.decodeError)).map warnMsg,
        some (completionMsg out files.length), true⟩ := by
  unfold write_markdown
  rw [writeBody_spec fs files h]
  rfl

/-- A tree with one decodable and one undecodable file. -/
def fsC4 : FileSystem :=
  ⟨[⟨["r", "a.ts"], some "let a"⟩, ⟨["r", "b.ts"], none⟩], [], []⟩

/-- Witness for C4: the undecodable `b.ts` yields a warning and no section;
`a.ts` still appears; the run completes. -/
theorem write_markdown_skips_undecodable_witness :
    write_markdown fsC4 [["r", "a.ts"], ["r", "b.ts"]] ["out.md"] "T" =
      ⟨headerText "T" ++ concatTexts ([["r", "a.ts"], ["r", "b.ts"]].map fun p =>
          match read_text fsC4 p, displayPath fsC4 p with
          | ReadResult.ok t, Except.ok rel => sectionText p rel t
          | _, _ => ""),
        ([["r", "a.ts"], ["r", "b.ts"]].filter fun p =>
          decide (read_text fsC4 p = ReadResult.decodeError)).map warnMsg,
        some (completionMsg ["out.md"] 2), true⟩ :=
  write_markdown_skips_undecodable fsC4 [["r", "a.ts"], ["r", "b.ts"]] ["out.md"] "T" (by decide)

/-- Claim C6: whenever the writer completes, its stdout message reports the
length of the list it was given — the pre-filter candidate count — regardless
of how many files were skipped for decode failures. -/
theorem completion_reports_prefilter_count (fs : FileSystem) (files : List Path) (out : Path)
    (now : String)
    (h : (write_markdown fs files out now).completed = true) :
    (write_markdown fs files out now).stdoutMsg =
      some ("Wrote " ++ strPath out ++ " with " ++ toString files.length ++ " files.") := by
  have hb : (writeBody fs files).2.2 = true := h
  simp [write_markdown, completionMsg, hb]

/-- A tree with two candidate files of which only one is decodable. -/
def fsC6 : FileSystem :=
  ⟨[⟨["r", "good.ts"], some "ok"⟩, ⟨["r", "bad.ts"], none⟩], [], []⟩

/-- Witness for C6: one of the two files is skipped, yet the message still
says two files. -/
theorem completion_reports_prefilter_count_witness :
    (write_markdown fsC6 [["r", "good.ts"], ["r", "bad.ts"]] ["out.md"] "T").stdoutMsg =
      some ("Wrote " ++ strPath ["out.md"] ++ " with " ++ toString (2 : Nat) ++ " files.") :=
  completion_reports_prefilter_count fsC6 [["r", "good.ts"], ["r", "bad.ts"]] ["out.md"] "T"
    (by decide)

end ConvertMD
